import Mathlib

/-!
Verification of the provider-to-proxy resolution engine of `opencode-proxy`.

The development shallowly embeds the TypeScript sources `src/config.ts` and
`src/index.ts` (the current version, using a compiled pattern table).
JavaScript strings are modelled as `List Char` (wrapped in `String` at the
interfaces); the WHATWG `URL` constructor, `encodeURIComponent`,
`decodeURIComponent`, `String.prototype.toLowerCase`,
`String.prototype.includes` and decimal number formatting are modelled as
executable Lean functions, restricted to ASCII inputs and to URL strings in
hierarchical `scheme://authority` form (the only shapes the program
produces or that the claims exercise); the restrictions are noted at each
definition.
-/

namespace OcProxy

/-- ASCII decimal digit. -/
def isAsciiDigit (c : Char) : Bool := 48 ≤ c.toNat && c.toNat ≤ 57

/-- ASCII letter. -/
def isAsciiAlpha (c : Char) : Bool :=
  (65 ≤ c.toNat && c.toNat ≤ 90) || (97 ≤ c.toNat && c.toNat ≤ 122)

/-- ASCII letter or digit. -/
def isAsciiAlphanum (c : Char) : Bool := isAsciiAlpha c || isAsciiDigit c

/-- Model of `String.prototype.toLowerCase` for one character, restricted to
ASCII (the JS function is Unicode-aware, but every input in this development
is ASCII): maps `A`-`Z` to `a`-`z` and leaves everything else unchanged. -/
def lowerChar (c : Char) : Char :=
  if 'A' ≤ c ∧ c ≤ 'Z' then Char.ofNat (c.toNat + 32) else c

/-- Model of `String.prototype.toLowerCase` on a whole string (ASCII). -/
def jsToLower (s : String) : String :=
  ⟨s.data.map lowerChar⟩

/-- Model of `text.includes(pat)` on character lists: `true` iff `pat`
occurs contiguously inside `text` (the empty pattern always occurs). -/
def includesList (text pat : List Char) : Bool :=
  if pat.isPrefixOf text then true
  else
    match text with
    | [] => false
    | _ :: t => includesList t pat

/-- Model of `s.includes(pat)` for JS strings. -/
def jsIncludes (s pat : String) : Bool :=
  includesList s.data pat.data

/-- Split a character list at the first occurrence of `sep`:
`some (before, after)` when `sep` occurs, `none` otherwise. -/
def splitAtFirst (sep : Char) : List Char → Option (List Char × List Char)
  | [] => none
  | c :: cs =>
    if c = sep then some ([], cs)
    else (splitAtFirst sep cs).map (fun p => (c :: p.1, p.2))

/-- Split a character list at the last occurrence of `sep`. -/
def splitAtLast (sep : Char) (cs : List Char) : Option (List Char × List Char) :=
  match splitAtFirst sep cs.reverse with
  | none => none
  | some p => some (p.2.reverse, p.1.reverse)

/-- The decimal digit character for `n < 10`. -/
def digitChar (n : Nat) : Char := Char.ofNat (48 + n)

/-- Numeric value of a decimal digit string (as `parseInt(s, 10)` computes it
on an all-digit string). -/
def digitsToNat (ds : List Char) : Nat :=
  ds.foldl (fun a c => a * 10 + (c.toNat - 48)) 0

/-- Fuel-driven decimal formatting (most significant digit first). -/
def decRepr : Nat → Nat → List Char
  | 0, _ => []
  | fuel + 1, n => if n < 10 then [digitChar n] else decRepr fuel (n / 10) ++ [digitChar (n % 10)]

/-- Model of JS number-to-string conversion for a nonnegative integer
(template-literal interpolation `${port}` prints it in decimal). -/
def decimalRepr (n : Nat) : List Char := decRepr (n + 1) n

/-- Uppercase hexadecimal digit for `n < 16` (as `encodeURIComponent` emits). -/
def hexDigitChar (n : Nat) : Char :=
  if n < 10 then Char.ofNat (48 + n) else Char.ofNat (55 + n)

/-- Value of a hexadecimal digit character, either case. -/
def hexVal (c : Char) : Option Nat :=
  if '0' ≤ c ∧ c ≤ '9' then some (c.toNat - 48)
  else if 'A' ≤ c ∧ c ≤ 'F' then some (c.toNat - 55)
  else if 'a' ≤ c ∧ c ≤ 'f' then some (c.toNat - 87)
  else none

/-- UTF-8 bytes of a character (JS engines percent-encode non-ASCII
characters byte by byte in UTF-8). -/
def utf8Bytes (c : Char) : List Nat :=
  if c.toNat < 0x80 then [c.toNat]
  else if c.toNat < 0x800 then [0xC0 + c.toNat / 64, 0x80 + c.toNat % 64]
  else if c.toNat < 0x10000 then
    [0xE0 + c.toNat / 4096, 0x80 + (c.toNat / 64) % 64, 0x80 + c.toNat % 64]
  else
    [0xF0 + c.toNat / 262144, 0x80 + (c.toNat / 4096) % 64, 0x80 + (c.toNat / 64) % 64,
     0x80 + c.toNat % 64]

/-- The `%XX` escape of one byte, uppercase hex. -/
def pctEncByte (b : Nat) : List Char :=
  ['%', hexDigitChar (b / 16), hexDigitChar (b % 16)]

/-- Percent-escape of one character: each of its UTF-8 bytes as `%XX`. -/
def pctEncChar (c : Char) : List Char :=
  (utf8Bytes c).foldr (fun b acc => pctEncByte b ++ acc) []

/-- Characters `encodeURIComponent` leaves unescaped:
`A`-`Z` `a`-`z` `0`-`9` `- _ . ! ~ * ' ( )`. -/
def uriUnreserved (c : Char) : Bool :=
  isAsciiAlphanum c || c ∈ ['-', '_', '.', '!', '~', '*', '\'', '(', ')']

/-- Model of `encodeURIComponent` on one character. -/
def encUriChar (c : Char) : List Char :=
  if uriUnreserved c then [c] else pctEncChar c

/-- Model of `encodeURIComponent` on a character list. -/
def encUriList (cs : List Char) : List Char :=
  cs.foldr (fun c acc => encUriChar c ++ acc) []

/-- Model of `encodeURIComponent` on a JS string. -/
def encodeURIComponent (s : String) : String :=
  ⟨encUriList s.data⟩

/-- Turn a percent-encoded character list into the byte sequence it denotes:
`%HH` contributes the byte `HH` (malformed escapes fail, as
`decodeURIComponent` throws `URIError` on them); any other character
contributes its own UTF-8 bytes. -/
def pctDecodeBytes : List Char → Option (List Nat)
  | [] => some []
  | c :: rest =>
    if c = '%' then
      match rest with
      | h1 :: h2 :: rest2 =>
        match hexVal h1, hexVal h2 with
        | some a, some b => (pctDecodeBytes rest2).map (fun l => (a * 16 + b) :: l)
        | _, _ => none
      | _ => none
    else (pctDecodeBytes rest).map (fun l => utf8Bytes c ++ l)
termination_by structural l => l

/-- Byte-by-byte UTF-8 decoding: the state is `none` when the next byte
must be a lead byte, and `some (k, acc)` when `k` continuation bytes are
still expected for a code point accumulated so far in `acc`. Malformed
sequences fail (as `decodeURIComponent` throws on them); overlong and
surrogate encodings are not fully policed — irrelevant for the ASCII
inputs of this development. -/
def utf8DecodeGo (state : Option (Nat × Nat)) : List Nat → Option (List Char)
  | [] =>
    match state with
    | none => some []
    | some _ => none
  | b :: rest =>
    match state with
    | none =>
      if b < 0x80 then (utf8DecodeGo none rest).map (fun l => Char.ofNat b :: l)
      else if b < 0xC2 then none
      else if b ≤ 0xDF then utf8DecodeGo (some (1, b - 0xC0)) rest
      else if b ≤ 0xEF then utf8DecodeGo (some (2, b - 0xE0)) rest
      else if b ≤ 0xF4 then utf8DecodeGo (some (3, b - 0xF0)) rest
      else none
    | some (k, acc) =>
      if 0x80 ≤ b ∧ b ≤ 0xBF then
        if k ≤ 1 then (utf8DecodeGo none rest).map (fun l => Char.ofNat (acc * 64 + (b - 0x80)) :: l)
        else utf8DecodeGo (some (k - 1, acc * 64 + (b - 0x80))) rest
      else none
termination_by structural l => l

/-- Decode a UTF-8 byte sequence back into characters; malformed sequences
fail (as `decodeURIComponent` throws on them). -/
def utf8Decode (bs : List Nat) : Option (List Char) :=
  utf8DecodeGo none bs

/-- Model of `decodeURIComponent` on a character list: percent-decode to
bytes, then UTF-8-decode; `none` models a thrown `URIError`. -/
def decUriList (cs : List Char) : Option (List Char) :=
  match pctDecodeBytes cs with
  | none => none
  | some bs => utf8Decode bs

/-- Model of `decodeURIComponent` on a JS string. -/
def decodeURIComponent (s : String) : Option String :=
  (decUriList s.data).map (fun l => ⟨l⟩)

/-! ## Model of the WHATWG `URL` constructor

Restricted to ASCII input strings in hierarchical `scheme://authority[...]`
form: a URL without `//` after the scheme fails in this model (the real
parser would produce an opaque path, on which `parseProxyUrl` fails anyway
for lack of a port, except for exotic special-scheme inputs no claim
exercises). IPv6 bracket hosts and non-ASCII hosts are out of scope and
fail. Non-canonical numeric hosts (`1.2.3`, `0x7f.1`, …) fail in the model
where the real parser would reparse them as IPv4 — no claim exercises them
and the quantified theorems exclude them via `hostOk`. -/

/-- Scheme characters after the first: ASCII alphanumeric, `+`, `-`, `.`. -/
def isSchemeChar (c : Char) : Bool :=
  isAsciiAlphanum c || c ∈ ['+', '-', '.']

/-- A syntactically acceptable scheme: nonempty, starts with an ASCII
letter, then scheme characters. -/
def schemeOk : List Char → Bool
  | [] => false
  | c :: cs => isAsciiAlpha c && (c :: cs).all isSchemeChar

/-- The special schemes of the WHATWG standard. -/
def isSpecialScheme (s : String) : Bool :=
  s ∈ ["http", "https", "ws", "wss", "ftp", "file"]

/-- Default port of a special scheme, stripped by the parser. -/
def specialDefaultPort (s : String) : Option Nat :=
  if s = "http" then some 80
  else if s = "https" then some 443
  else if s = "ws" then some 80
  else if s = "wss" then some 443
  else if s = "ftp" then some 21
  else none

/-- A character that terminates the authority component
(`/`, `?`, `#`, and `\` for special schemes). -/
def authorityEndChar (special : Bool) (c : Char) : Bool :=
  c ∈ ['/', '?', '#'] || (special && c = '\\')

/-- Forbidden host code points of the WHATWG standard. -/
def forbiddenHostCode (c : Char) : Bool :=
  c ∈ ['\x00', '\t', '\n', '\r', ' ', '#', '/', ':', '<', '>', '?', '@', '[', '\\', ']', '^', '|']

/-- Split a host at the literal dots. -/
def splitDots : List Char → List (List Char)
  | [] => [[]]
  | c :: rest =>
    if c = '.' then [] :: splitDots rest
    else
      match splitDots rest with
      | [] => [[c]]
      | l :: ls => (c :: l) :: ls

/-- The "ends in a number" test of the WHATWG host parser: the last
nonempty dot-label is all decimal digits, or `0x`/`0X` followed by hex
digits. Such hosts are reparsed as IPv4 addresses. -/
def endsInNumber (h : List Char) : Bool :=
  let parts := splitDots h
  let parts := if parts.getLast? = some [] then parts.dropLast else parts
  match parts.getLast? with
  | none => false
  | some [] => false
  | some last =>
    last.all isAsciiDigit ||
      (match last with
       | '0' :: x :: rest => (x = 'x' || x = 'X') && rest.all (fun c => (hexVal c).isSome)
       | _ => false)

/-- A dot-label that is a canonical decimal IPv4 octet: digits only, no
leading zero, value at most 255. -/
def ipv4Label (l : List Char) : Bool :=
  match l with
  | [] => false
  | c :: cs => l.all isAsciiDigit && (c ≠ '0' || cs = []) && digitsToNat l ≤ 255

/-- A host that is already a canonical dotted-quad IPv4 address; the real
parser reserializes such a host to itself. -/
def canonicalIPv4 (h : List Char) : Bool :=
  match splitDots h with
  | [a, b, c, d] => ipv4Label a && ipv4Label b && ipv4Label c && ipv4Label d
  | _ => false

/-- Host parsing: special schemes get domain handling (nonempty, forbidden
domain code points rejected, ASCII-lowercased, numeric tails must be
canonical IPv4); other schemes get an opaque host that preserves case. -/
def parseHost (scheme : String) (hostRaw : List Char) : Option (List Char) :=
  if isSpecialScheme scheme then
    if hostRaw = [] then none
    else if hostRaw.any (fun c => forbiddenHostCode c || c = '%' || c.toNat ≤ 0x1F || 0x7F ≤ c.toNat) then none
    else
      let h := hostRaw.map lowerChar
      if endsInNumber h then (if canonicalIPv4 h then some h else none) else some h
  else
    if hostRaw.any (fun c => forbiddenHostCode c || c.toNat ≤ 0x1F || 0x7F ≤ c.toNat) then none
    else some hostRaw

/-- Port parsing: `none` of the outer `Option` is a parse failure (the
constructor throws); the inner `Option` is the port, with `none` for "no
port" (which `URL.port` serializes as the empty string). Digits only; at
most 65535; a special scheme's default port is stripped; `file` URLs admit
no port at all. -/
def parsePort (scheme : String) : Option (List Char) → Option (Option Nat)
  | none => some none
  | some ds =>
    if scheme = "file" then none
    else if ds = [] then some none
    else if ¬ ds.all isAsciiDigit then none
    else if 65535 < digitsToNat ds then none
    else if specialDefaultPort scheme = some (digitsToNat ds) then some none
    else some (some (digitsToNat ds))

/-- The percent-encode set the URL parser applies to userinfo characters
(C0 controls, DEL and non-ASCII, and the listed punctuation). -/
def userinfoEncodeSet (c : Char) : Bool :=
  c.toNat ≤ 0x1F || 0x7F ≤ c.toNat ||
    c ∈ [' ', '"', '#', '<', '>', '?', '`', '\x7b', '\x7d',
         '/', ':', ';', '=', '@', '[', '\\', ']', '^', '|']

/-- Userinfo serialization of one character. -/
def userinfoEncChar (c : Char) : List Char :=
  if userinfoEncodeSet c then pctEncChar c else [c]

/-- Userinfo serialization of a component (as `URL.username` /
`URL.password` report it: still percent-encoded). -/
def userinfoEnc (cs : List Char) : List Char :=
  cs.foldr (fun c acc => userinfoEncChar c ++ acc) []

/-- The components of a parsed URL that `parseProxyUrl` reads.
`scheme` is lowercased and has no trailing colon (the source computes it as
`parsed.protocol.replace(':', '')`); `username`/`password` are the
percent-encoded serializations (empty when absent); `port` is `none` when
`parsed.port` is the empty string (so `parseInt` on it yields `NaN`). -/
structure UrlParts where
  scheme : String
  username : String
  password : String
  hostname : String
  port : Option Nat
deriving DecidableEq

/-- Model of `new URL(s)` on the character list of `s`;
`none` models a thrown `TypeError`. -/
def urlParseList (cs : List Char) : Option UrlParts :=
  match splitAtFirst ':' cs with
  | none => none
  | some (schemeRaw, rest) =>
    if ¬ schemeOk schemeRaw then none
    else
      let scheme : String := ⟨schemeRaw.map lowerChar⟩
      match rest with
      | '/' :: '/' :: rest2 =>
        let authority := rest2.takeWhile (fun c => ¬ authorityEndChar (isSpecialScheme scheme) c)
        if scheme = "file" ∧ authority.any (fun c => c = '@') then none
        else
          let split1 :=
            match splitAtLast '@' authority with
            | some (ui, hp) => (some ui, hp)
            | none => (none, authority)
          let split2 :=
            match splitAtFirst ':' split1.2 with
            | some (h, p) => (h, some p)
            | none => (split1.2, none)
          match parseHost scheme split2.1 with
          | none => none
          | some host =>
            match parsePort scheme split2.2 with
            | none => none
            | some port =>
              let creds :=
                match split1.1 with
                | none => ([], [])
                | some ui =>
                  match splitAtFirst ':' ui with
                  | some (u, p) => (userinfoEnc u, userinfoEnc p)
                  | none => (userinfoEnc ui, [])
              some ⟨scheme, ⟨creds.1⟩, ⟨creds.2⟩, ⟨host⟩, port⟩
      | _ => none

/-- Model of `new URL(s)` on a JS string. -/
def urlParse (s : String) : Option UrlParts :=
  urlParseList s.data

/-! ## `src/config.ts` and `src/index.ts` -/

/-- The `ProxyConfig` interface of `src/types.ts`: one parsed proxy target.
The `protocol` field is a plain string, as the source merely casts. -/
structure ProxyConfig where
  protocol : String
  host : String
  port : Nat
  username : Option String := none
  password : Option String := none
deriving DecidableEq

/-- The `validProtocols` list of `parseProxyUrl`. -/
def validProtocols : List String :=
  ["http", "https", "socks", "socks4", "socks5"]

/-- Model of `parseProxyUrl` of `src/config.ts`: parse a proxy URL string into a
`ProxyConfig`, `none` for `null`. A `decodeURIComponent` failure is caught
by the surrounding `try` and also yields `null`. -/
def parseProxyUrl (url : String) : Option ProxyConfig :=
  match urlParse url with
  | none => none
  | some parsed =>
    match parsed.port with
    | none => none
    | some port =>
      if port < 1 ∨ 65535 < port then none
      else if ¬ validProtocols.contains parsed.scheme then none
      else
        match (if parsed.username ≠ "" then (decodeURIComponent parsed.username).map some else some none) with
        | none => none
        | some u =>
          match (if parsed.password ≠ "" then (decodeURIComponent parsed.password).map some else some none) with
          | none => none
          | some p => some ⟨parsed.scheme, parsed.hostname, port, u, p⟩

/-- A raw JSON value as `validateConfig` distinguishes them by `typeof`:
a boolean, a string, or anything else. -/
inductive JsonValue where
  | jbool (b : Bool)
  | jstr (s : String)
  | jother
deriving DecidableEq

/-- A raw configuration object from `JSON.parse`: keyed entries in
insertion order. -/
abbrev RawConfig := List (String × JsonValue)

/-- Model of `validateConfig` of `src/config.ts` on a (non-null) raw object:
`debug` must map to a boolean, every other key to a string accepted by
`parseProxyUrl`; the first violation rejects the whole object. -/
def validateConfig : RawConfig → Bool
  | [] => true
  | (k, v) :: rest =>
    if k = "debug" then
      match v with
      | .jbool _ => validateConfig rest
      | _ => false
    else
      match v with
      | .jstr s => if (parseProxyUrl s).isSome then validateConfig rest else false
      | _ => false

/-- A value of the typed `ProxyPluginConfig` object. -/
inductive ConfigVal where
  | vBool (b : Bool)
  | vStr (s : String)
deriving DecidableEq

/-- The typed `ProxyPluginConfig` object: properties in insertion order. -/
abbrev Config := List (String × ConfigVal)

/-- JS object/`Map` property update: an existing key keeps its position and
gets the new value; a new key is appended. -/
def mapSet {α : Type} : List (String × α) → String → α → List (String × α)
  | [], k, v => [(k, v)]
  | (k', v') :: rest, k, v =>
    if k' = k then (k', v) :: rest else (k', v') :: mapSet rest k v

/-- JS object property read / `Map.get`: first entry with the key (objects
and `Map`s hold each key at most once). -/
def mapGet {α : Type} : List (String × α) → String → Option α
  | [], _ => none
  | (k', v') :: rest, k => if k' = k then some v' else mapGet rest k

/-- The typed-config construction loop of `loadConfig`: `debug` with a
boolean lands in `config.debug`; any other string-valued key is copied;
everything else is dropped. -/
def buildTypedConfig (raw : RawConfig) : Config :=
  raw.foldl
    (fun c kv =>
      match kv with
      | (k, .jbool b) => if k = "debug" then mapSet c "debug" (.vBool b) else c
      | (k, .jstr s) => if k = "debug" then c else mapSet c k (.vStr s)
      | (_, .jother) => c)
    []

/-- The pure core of `loadConfig` of `src/config.ts`: the argument is
`none` when the file is missing, unreadable or not JSON (the exception
path); otherwise the parsed raw object is validated and, on success,
converted to the typed configuration. -/
def loadConfigFrom (raw : Option RawConfig) : Option Config :=
  match raw with
  | none => none
  | some r => if validateConfig r then some (buildTypedConfig r) else none

/-- Model of `getConfiguredProviders` of `src/config.ts`: keys other than `debug`
whose value is a string, in insertion order. -/
def getConfiguredProviders (c : Config) : List String :=
  (c.filter (fun kv => kv.1 ≠ "debug" && (match kv.2 with | .vStr _ => true | _ => false))).map
    (fun kv => kv.1)

/-- The `debug` flag of a typed configuration (`config.debug ?? false`;
validated configurations only ever hold a boolean there). -/
def configDebug (c : Config) : Bool :=
  match mapGet c "debug" with
  | some (.vBool b) => b
  | some (.vStr s) => s ≠ ""
  | none => false

/-- Model of `buildProxyUrl` of `src/index.ts`: serialize a `ProxyConfig` into a
canonical proxy URL string. A bare `socks` protocol is written as
`socks5`; absent or empty credentials contribute no authority prefix. -/
def buildProxyUrl (c : ProxyConfig) : String :=
  let auth : String :=
    match c.username with
    | some u =>
      if u ≠ "" then
        match c.password with
        | some p =>
          if p ≠ "" then encodeURIComponent u ++ ":" ++ encodeURIComponent p ++ "@"
          else encodeURIComponent u ++ "@"
        | none => encodeURIComponent u ++ "@"
      else ""
    | none => ""
  let normalizedProtocol := if c.protocol = "socks" then "socks5" else c.protocol
  normalizedProtocol ++ "://" ++ auth ++ c.host ++ ":" ++ (⟨decimalRepr c.port⟩ : String)

/-- Model of `getUrlPatternsForProvider` of `src/index.ts`: the built-in provider
pattern table; unknown providers get no patterns. -/
def getUrlPatternsForProvider (provider : String) : List String :=
  if provider = "google" then ["generativelanguage.googleapis.com", "ai.google.dev", "googleapis.com"]
  else if provider = "google-vertex" then ["vertexai.googleapis.com", "aiplatform.googleapis.com"]
  else if provider = "google-vertex-anthropic" then ["vertexai.googleapis.com"]
  else if provider = "anthropic" then ["api.anthropic.com"]
  else if provider = "openai" then ["api.openai.com", "openai.azure.com"]
  else if provider = "azure" then ["openai.azure.com"]
  else if provider = "amazon-bedrock" then ["bedrock-runtime", "amazonaws.com"]
  else if provider = "moonshot" then ["api.moonshot.cn"]
  else if provider = "kimi" then ["api.moonshot.cn"]
  else if provider = "deepseek" then ["api.deepseek.com"]
  else if provider = "groq" then ["api.groq.com"]
  else if provider = "mistral" then ["api.mistral.ai"]
  else if provider = "cohere" then ["api.cohere.ai"]
  else if provider = "together" then ["api.together.xyz"]
  else if provider = "perplexity" then ["api.perplexity.ai"]
  else if provider = "openrouter" then ["openrouter.ai"]
  else if provider = "github-copilot" then ["api.githubcopilot.com", "copilot-proxy.githubusercontent.com"]
  else if provider = "xai" then ["api.x.ai"]
  else if provider = "cerebras" then ["api.cerebras.ai"]
  else if provider = "fireworks" then ["api.fireworks.ai"]
  else []

/-- The compiled rule table: lowercase pattern to proxy URL string, in
`Map` iteration (= insertion) order. -/
abbrev Rules := List (String × String)

/-- One iteration of the `compileRules` loop: fetch the provider's URL
from the configuration, parse it (skipping the provider on failure),
serialize it canonically, and insert every one of the provider's
lowercased patterns into the table. -/
def compileStep (config : Config) (rules : Rules) (provider : String) : Rules :=
  match mapGet config provider with
  | some (.vStr u) =>
    match parseProxyUrl u with
    | none => rules
    | some proxyConfig =>
      let proxyUrl := buildProxyUrl proxyConfig
      (getUrlPatternsForProvider provider).foldl
        (fun rs pattern => mapSet rs (jsToLower pattern) proxyUrl) rules
  | _ => rules

/-- Model of `compileRules` of `src/index.ts`: for each configured provider in
order, parse its URL (failures are skipped), serialize it canonically, and
insert every one of the provider's lowercased patterns into the table. -/
def compileRules (config : Config) : Rules :=
  (getConfiguredProviders config).foldl (compileStep config) []

/-- The mutable plugin state (the fields the resolver and the reload
callback touch). -/
structure PluginState where
  config : Option Config
  debug : Bool
  compiledRules : Option Rules
deriving DecidableEq

/-- The scan loop of `shouldUseProxyForUrl`: first pattern that the
lowercased URL `includes` wins; otherwise no rule matches. -/
def scanRules (urlLower : String) : Rules → Option String
  | [] => none
  | (pattern, proxyUrl) :: rest =>
    if jsIncludes urlLower pattern then some proxyUrl else scanRules urlLower rest

/-- Model of `shouldUseProxyForUrl` of `src/index.ts`: `none` collapses the
source's `null`/`undefined` (both mean "connect directly" at the call
site); `some proxyUrl` means "use this proxy". -/
def shouldUseProxyForUrl (st : PluginState) (url : String) : Option String :=
  match st.config, st.compiledRules with
  | some _, some rules => scanRules (jsToLower url) rules
  | _, _ => none

/-- The `watchConfig` callback of `OpenCodeProxyPlugin` in
`src/index.ts`, as a state transition on the freshly loaded
configuration: `none` (load/validation failure) leaves the state
untouched; a successful load replaces configuration, debug flag and
compiled table wholesale. -/
def reloadCallback (st : PluginState) (newConfig : Option Config) : PluginState :=
  match newConfig with
  | none => st
  | some c => ⟨some c, configDebug c, some (compileRules c)⟩

/-- The patched `globalThis.fetch` of `OpenCodeProxyPlugin`, with the
transport abstracted: `ofetch input proxy?` is the original fetch, called
with or without a `proxy` option, returning `Except` to model a
resolved/rejected promise. A `none` resolution goes straight to the
direct call; a `some proxyUrl` resolution tries the proxied call and, on
any thrown/rejected error, the `catch` block falls back to the direct
call. -/
def patchedFetch {ε ρ : Type} (st : PluginState)
    (ofetch : String → Option String → Except ε ρ) (url : String) : Except ε ρ :=
  match shouldUseProxyForUrl st url with
  | none => ofetch url none
  | some proxyUrl =>
    match ofetch url (some proxyUrl) with
    | .ok r => .ok r
    | .error _ => ofetch url none

end OcProxy

namespace OcProxy

/-! ## Example configurations named in the spec -/

/-- The one-provider configuration of the spec's running example. -/
def googleConfig : Config := [("google", ConfigVal.vStr "http://127.0.0.1:20171")]

/-- The plugin state after compiling `googleConfig`. -/
def googleState : PluginState :=
  ⟨some googleConfig, false, some (compileRules googleConfig)⟩

/-- A one-provider configuration keyed `anthropic`. -/
def anthropicConfig : Config := [("anthropic", ConfigVal.vStr "http://127.0.0.1:20171")]

/-- The plugin state after compiling `anthropicConfig`. -/
def anthropicState : PluginState :=
  ⟨some anthropicConfig, false, some (compileRules anthropicConfig)⟩

/-- The per-entry check `validateConfig` applies, as one Boolean. -/
def entryCheck (kv : String × JsonValue) : Bool :=
  if kv.1 = "debug" then
    match kv.2 with
    | .jbool _ => true
    | _ => false
  else
    match kv.2 with
    | .jstr s => (parseProxyUrl s).isSome
    | _ => false

/-- The characters that can appear in `encodeURIComponent` output:
unreserved characters, `%`, and upper-case hex digits. -/
def encOutChar (c : Char) : Bool :=
  uriUnreserved c || c = '%' || isAsciiDigit c || (65 ≤ c.toNat && c.toNat ≤ 70)

/-- Characters of the hosts the quantified theorems range over: lowercase
ASCII letters, digits, `.`, `-`, `_`. -/
def hostChar (c : Char) : Bool :=
  (97 ≤ c.toNat && c.toNat ≤ 122) || (48 ≤ c.toNat && c.toNat ≤ 57) ||
    c = '.' || c = '-' || c = '_'

/-- The host predicate of the quantified theorems: nonempty, made of
`hostChar` characters, and not a malformed numeric address (a numeric last
label must be a canonical dotted-quad IPv4 address, which the URL parser
reserializes unchanged). -/
def hostOk (h : String) : Bool :=
  !h.data.isEmpty && h.data.all hostChar &&
    (!endsInNumber h.data || canonicalIPv4 h.data)

/-- The authority prefix contributed by an optional userinfo component. -/
def uiAuth : Option (List Char) → List Char
  | none => []
  | some ui => ui ++ ['@']

/-- The username serialization the parser derives from an optional
userinfo component (mirrors the `creds` computation of `urlParseList`). -/
def uiSplitU : Option (List Char) → List Char
  | none => []
  | some ui =>
    match splitAtFirst ':' ui with
    | some p => userinfoEnc p.1
    | none => userinfoEnc ui

/-- The password serialization the parser derives from an optional
userinfo component. -/
def uiSplitP : Option (List Char) → List Char
  | none => []
  | some ui =>
    match splitAtFirst ':' ui with
    | some p => userinfoEnc p.2
    | none => []

/-- A credential component the round-trip law ranges over: nonempty and
ASCII (so it is percent-encodable). -/
def credOk (s : String) : Bool :=
  !s.data.isEmpty && s.data.all (fun c => c.toNat < 128)

/-- Valid optional credential pairs: a password requires a username. -/
def credsOk : Option String → Option String → Bool
  | none, none => true
  | some u, none => credOk u
  | some u, some p => credOk u && credOk p
  | none, some _ => false

/-! ## Supporting lemmas -/

theorem isPrefixOf_eq (l₁ l₂ : List Char) : l₁.isPrefixOf l₂ = true ↔ l₁ <+: l₂ := by
  exact List.isPrefixOf_iff_prefix

theorem includesList_iff (text pat : List Char) :
    includesList text pat = true ↔ pat <:+: text := by
  induction text with
  | nil =>
    rw [includesList]
    constructor
    · intro h
      split at h
      · next hp => exact ((isPrefixOf_eq pat _).mp hp).isInfix
      · simp at h
    · intro h
      have : pat = [] := List.eq_nil_of_infix_nil h
      subst this
      simp [List.isPrefixOf]
  | cons c t ih =>
    rw [includesList]
    constructor
    · intro h
      split at h
      · next hp => exact ((isPrefixOf_eq pat _).mp hp).isInfix
      · exact (List.infix_cons_iff.mpr (Or.inr (ih.mp h)))
    · intro h
      rcases List.infix_cons_iff.mp h with hp | hi
      · simp [(isPrefixOf_eq pat _).mpr hp]
      · split
        · rfl
        · exact ih.mpr hi

theorem scanRules_eq_none_iff (u : String) (rules : Rules) :
    scanRules u rules = none ↔ ∀ e ∈ rules, ¬ (e.1.data <:+: u.data) := by
  induction rules with
  | nil => simp [scanRules]
  | cons e rest ih =>
    rw [scanRules]
    constructor
    · intro h
      split at h
      · simp at h
      · next hnot =>
        intro e' he'
        rcases List.mem_cons.mp he' with rfl | hm
        · intro hin
          exact hnot (by simpa [jsIncludes] using (includesList_iff u.data e'.1.data).mpr hin)
        · exact ih.mp h e' hm
    · intro h
      split
      · next hj =>
        exact absurd ((includesList_iff u.data e.1.data).mp (by simpa [jsIncludes] using hj))
          (h e (List.mem_cons_self e rest))
      · exact ih.mpr (fun e' he' => h e' (List.mem_cons_of_mem e he'))

theorem scanRules_eq_some_iff (u : String) (rules : Rules) (v : String) :
    scanRules u rules = some v ↔
      ∃ pre p suf, rules = pre ++ (p, v) :: suf ∧ p.data <:+: u.data ∧
        ∀ e ∈ pre, ¬ (e.1.data <:+: u.data) := by
  induction rules with
  | nil => simp [scanRules]
  | cons e rest ih =>
    rw [scanRules]
    constructor
    · intro h
      split at h
      · next hj =>
        refine ⟨[], e.1, rest, ?_, ?_, by simp⟩
        · simp at h
          simp [← h]
        · exact (includesList_iff u.data e.1.data).mp (by simpa [jsIncludes] using hj)
      · next hj =>
        obtain ⟨pre, p, suf, hrest, hin, hpre⟩ := ih.mp h
        refine ⟨e :: pre, p, suf, by simp [hrest], hin, ?_⟩
        intro e' he'
        rcases List.mem_cons.mp he' with rfl | hm
        · intro hcontra
          exact hj (by simpa [jsIncludes] using (includesList_iff u.data e'.1.data).mpr hcontra)
        · exact hpre e' hm
    · rintro ⟨pre, p, suf, hsplit, hin, hpre⟩
      cases pre with
      | nil =>
        simp at hsplit
        obtain ⟨rfl, rfl⟩ := hsplit
        simp [jsIncludes, (includesList_iff u.data p.data).mpr hin]
      | cons e0 pre' =>
        rw [List.cons_append] at hsplit
        injection hsplit with heq hrest
        subst heq
        have he0 : ¬ (e.1.data <:+: u.data) := hpre e (List.mem_cons_self e pre')
        split
        · next hj =>
          exact absurd ((includesList_iff u.data e.1.data).mp (by simpa [jsIncludes] using hj)) he0
        · exact ih.mpr ⟨pre', p, suf, hrest, hin, fun e' he' => hpre e' (List.mem_cons_of_mem e he')⟩

theorem mapGet_mapSet_self {α : Type} (m : List (String × α)) (k : String) (v : α) :
    mapGet (mapSet m k v) k = some v := by
  induction m with
  | nil => simp [mapSet, mapGet]
  | cons e rest ih =>
    rw [mapSet]
    split
    · next h => rw [mapGet, if_pos h]
    · next h => rw [mapGet, if_neg h]; exact ih

/-! ## Claims -/

/-- C1: with an active configuration and compiled table, the resolver
returns the proxy URL bound to the first pattern (in the table's insertion
order) that is a substring of the lowercased request URL, and returns the
connect-direct outcome (`none`, not an error) when no pattern matches; for
the table compiled from the configuration mapping `google` to
`http://127.0.0.1:20171`, the Moonshot URL resolves to connect-direct and
the Google Generative Language URL resolves to that proxy. -/
theorem C1_resolver_first_match_default_direct :
    (∀ (cfg : Config) (d : Bool) (rules : Rules) (url : String),
      (∀ v, shouldUseProxyForUrl ⟨some cfg, d, some rules⟩ url = some v ↔
        ∃ pre p suf, rules = pre ++ (p, v) :: suf ∧ p.data <:+: (jsToLower url).data ∧
          ∀ e ∈ pre, ¬ (e.1.data <:+: (jsToLower url).data)) ∧
      (shouldUseProxyForUrl ⟨some cfg, d, some rules⟩ url = none ↔
        ∀ e ∈ rules, ¬ (e.1.data <:+: (jsToLower url).data))) ∧
    shouldUseProxyForUrl googleState "https://api.moonshot.cn/v1/models" = none ∧
    shouldUseProxyForUrl googleState "https://generativelanguage.googleapis.com/v1beta/models" =
      some "http://127.0.0.1:20171" := by
  refine ⟨fun cfg d rules url => ⟨fun v => ?_, ?_⟩, by decide, by decide⟩
  · exact scanRules_eq_some_iff (jsToLower url) rules v
  · exact scanRules_eq_none_iff (jsToLower url) rules

/-- Witness for C1 at a concrete table and URL. -/
theorem C1_witness :
    shouldUseProxyForUrl ⟨some googleConfig, false, some [("googleapis.com", "u")]⟩
      "https://googleapis.com/x" = some "u" :=
  ((C1_resolver_first_match_default_direct.1 googleConfig false [("googleapis.com", "u")]
      "https://googleapis.com/x").1 "u").mpr
    ⟨[], "googleapis.com", [], rfl, by decide, by simp⟩

theorem validateConfig_eq_all (raw : RawConfig) :
    validateConfig raw = raw.all entryCheck := by
  induction raw with
  | nil => rfl
  | cons kv rest ih =>
    obtain ⟨k, v⟩ := kv
    by_cases hk : k = "debug"
    · cases v with
      | jbool b => simp [validateConfig, entryCheck, hk, ih]
      | jstr s => simp [validateConfig, entryCheck, hk]
      | jother => simp [validateConfig, entryCheck, hk]
    · cases v with
      | jbool b => simp [validateConfig, entryCheck, hk]
      | jstr s =>
        cases hps : parseProxyUrl s with
        | none => simp [validateConfig, entryCheck, hk, hps]
        | some pc => simp [validateConfig, entryCheck, hk, hps, ih]
      | jother => simp [validateConfig, entryCheck, hk]

theorem entryCheck_iff (kv : String × JsonValue) :
    entryCheck kv = true ↔
      (kv.1 = "debug" → ∃ b, kv.2 = JsonValue.jbool b) ∧
      (kv.1 ≠ "debug" → ∃ s, kv.2 = JsonValue.jstr s ∧ (parseProxyUrl s).isSome = true) := by
  obtain ⟨k, v⟩ := kv
  by_cases hk : k = "debug"
  · cases v with
    | jbool b => simp [entryCheck, hk]
    | jstr s => simp [entryCheck, hk]
    | jother => simp [entryCheck, hk]
  · cases v with
    | jbool b => simp [entryCheck, hk]
    | jstr s =>
      cases hps : parseProxyUrl s with
      | none => simp [entryCheck, hk, hps]
      | some pc => simp [entryCheck, hk, hps]
    | jother => simp [entryCheck, hk]

/-- C2: validation is all-or-nothing — `validateConfig` accepts a raw
object iff every entry is valid (`debug` maps to a boolean, every other
key to a string `parseProxyUrl` accepts), and when it rejects,
`loadConfig` produces no configuration at all. -/
theorem C2_validation_all_or_nothing :
    (∀ raw : RawConfig,
      validateConfig raw = true ↔
        ∀ kv ∈ raw,
          (kv.1 = "debug" → ∃ b, kv.2 = JsonValue.jbool b) ∧
          (kv.1 ≠ "debug" → ∃ s, kv.2 = JsonValue.jstr s ∧ (parseProxyUrl s).isSome = true)) ∧
    ∀ raw : RawConfig, validateConfig raw = false → loadConfigFrom (some raw) = none := by
  constructor
  · intro raw
    rw [validateConfig_eq_all, List.all_eq_true]
    constructor
    · intro h kv hm
      exact (entryCheck_iff kv).mp (h kv hm)
    · intro h kv hm
      exact (entryCheck_iff kv).mpr (h kv hm)
  · intro raw h
    simp [loadConfigFrom, h]

/-- Witness for C2: a configuration with one bad URL loads as nothing. -/
theorem C2_witness :
    loadConfigFrom (some [("google", JsonValue.jstr "http://127.0.0.1:20171"),
      ("openai", JsonValue.jstr "not-a-url")]) = none :=
  C2_validation_all_or_nothing.2 _ (by decide)

/-- C3: a reload that produced no configuration (`loadConfig` returned
null) leaves the whole plugin state — including the active compiled
table — unchanged, and no reload outcome can ever remove an active table
once one exists. -/
theorem C3_reload_failure_atomicity :
    (∀ st : PluginState, reloadCallback st none = st) ∧
    ∀ (st : PluginState) (nc : Option Config),
      st.compiledRules.isSome = true → (reloadCallback st nc).compiledRules.isSome = true := by
  constructor
  · intro st; rfl
  · intro st nc h
    cases nc with
    | none => exact h
    | some c => simp [reloadCallback]

/-- Witness for C3 at a concrete previously-active state. -/
theorem C3_witness :
    (reloadCallback ⟨some googleConfig, false, some [("p", "u")]⟩ none).compiledRules.isSome
      = true :=
  C3_reload_failure_atomicity.2 ⟨some googleConfig, false, some [("p", "u")]⟩ none (by decide)

/-- C8: in the patched fetch, an error raised during the proxied attempt
for one request is caught at that request's granularity and the request is
issued through the original direct fetch instead; the wrapper can only
fail if the direct attempt itself fails. -/
theorem C8_resolution_errors_not_fatal :
    ∀ {ε ρ : Type} (st : PluginState) (ofetch : String → Option String → Except ε ρ)
      (url : String),
      (∀ (proxyUrl : String) (e : ε), shouldUseProxyForUrl st url = some proxyUrl →
        ofetch url (some proxyUrl) = .error e →
        patchedFetch st ofetch url = ofetch url none) ∧
      (∀ e : ε, patchedFetch st ofetch url = .error e → ofetch url none = .error e) := by
  intro ε ρ st ofetch url
  constructor
  · intro proxyUrl e hres herr
    simp [patchedFetch, hres, herr]
  · intro e h
    rw [patchedFetch] at h
    cases hres : shouldUseProxyForUrl st url with
    | none => rw [hres] at h; exact h
    | some proxyUrl =>
      rw [hres] at h
      simp only [] at h
      cases hp : ofetch url (some proxyUrl) with
      | ok r => simp [hp] at h
      | error e' => simp [hp] at h; exact h

/-- Witness for C8: with a transport that rejects every proxied attempt,
the wrapper returns the direct attempt's result. -/
theorem C8_witness :
    patchedFetch ⟨some googleConfig, false, some [("x", "proxy-u")]⟩
      (fun _ p => match p with | some _ => (Except.error () : Except Unit Nat) | none => .ok 7)
      "x" = (fun (_ : String) (p : Option String) =>
        match p with | some _ => (Except.error () : Except Unit Nat) | none => .ok 7) "x" none :=
  (C8_resolution_errors_not_fatal ⟨some googleConfig, false, some [("x", "proxy-u")]⟩
      (fun _ p => match p with | some _ => (Except.error () : Except Unit Nat) | none => .ok 7)
      "x").1 "proxy-u" () (by decide) rfl

/-- C10: pattern matching is a substring test over the whole lowercased
request URL, not just its hostname: a URL whose host matches no configured
provider but whose path contains the pattern `api.anthropic.com` resolves
to that provider's proxy, while the same host with a plain path resolves
to connect-direct. -/
theorem C10_substring_matches_whole_url :
    shouldUseProxyForUrl anthropicState "https://example.com/api.anthropic.com" =
      some "http://127.0.0.1:20171" ∧
    shouldUseProxyForUrl anthropicState "https://example.com/" = none := by
  constructor
  · decide
  · decide

theorem mapGet_middle_ne {α : Type} (pre post : List (String × α)) (kv : String × α)
    (q : String) (h : kv.1 ≠ q) :
    mapGet (pre ++ kv :: post) q = mapGet (pre ++ post) q := by
  induction pre with
  | nil =>
    obtain ⟨k, v⟩ := kv
    simpa [mapGet] using fun hk => absurd hk h
  | cons e rest ih =>
    rw [List.cons_append, List.cons_append, mapGet, mapGet]
    split
    · rfl
    · exact ih

theorem mapGet_append_first {α : Type} (pre post : List (String × α)) (k : String) (v : α)
    (h : k ∉ pre.map Prod.fst) :
    mapGet (pre ++ (k, v) :: post) k = some v := by
  induction pre with
  | nil => simp [mapGet]
  | cons e rest ih =>
    rw [List.cons_append, mapGet]
    rw [List.map_cons, List.mem_cons] at h
    push_neg at h
    rw [if_neg (Ne.symm h.1)]
    exact ih h.2

theorem getConfiguredProviders_append (l₁ l₂ : Config) :
    getConfiguredProviders (l₁ ++ l₂) = getConfiguredProviders l₁ ++ getConfiguredProviders l₂ := by
  simp [getConfiguredProviders, List.filter_append]

theorem mem_getConfiguredProviders {q : String} {l : Config}
    (h : q ∈ getConfiguredProviders l) : q ∈ l.map Prod.fst ∧ q ≠ "debug" := by
  rw [getConfiguredProviders] at h
  obtain ⟨kv, hkv, rfl⟩ := List.mem_map.mp h
  have hf := List.mem_filter.mp hkv
  refine ⟨List.mem_map.mpr ⟨kv, hf.1, rfl⟩, ?_⟩
  have := hf.2
  simp only [Bool.and_eq_true, decide_eq_true_eq] at this
  exact this.1

/-- C9: rule compilation is total (a Lean function by construction) and an
entry whose URL fails to parse is silently skipped: removing it from the
configuration leaves the compiled table unchanged. -/
theorem C9_compile_skips_unparseable_entries :
    ∀ (pre post : Config) (prov u : String),
      ((pre ++ (prov, ConfigVal.vStr u) :: post).map Prod.fst).Nodup →
      parseProxyUrl u = none →
      compileRules (pre ++ (prov, ConfigVal.vStr u) :: post) = compileRules (pre ++ post) := by
  intro pre post prov u hnd hu
  rw [List.map_append, List.map_cons] at hnd
  have hnd' := List.nodup_middle.mp hnd
  rw [List.nodup_cons] at hnd'
  have hprovpre : prov ∉ pre.map Prod.fst := fun hm =>
    hnd'.1 (List.mem_append.mpr (Or.inl hm))
  have hstep : ∀ (s : Rules), ∀ q ∈ getConfiguredProviders (pre ++ post),
      compileStep (pre ++ (prov, ConfigVal.vStr u) :: post) s q =
        compileStep (pre ++ post) s q := by
    intro s q hq
    have hqne : prov ≠ q := by
      intro hqe
      subst hqe
      exact hnd'.1 (by
        rw [← List.map_append]
        exact (mem_getConfiguredProviders hq).1)
    rw [compileStep, compileStep, mapGet_middle_ne pre post (prov, ConfigVal.vStr u) q hqne]
  by_cases hd : prov = "debug"
  · have hgp : getConfiguredProviders (pre ++ (prov, ConfigVal.vStr u) :: post) =
        getConfiguredProviders (pre ++ post) := by
      rw [getConfiguredProviders_append, getConfiguredProviders_append]
      congr 1
      rw [getConfiguredProviders, List.filter_cons]
      rw [if_neg (by simp [hd])]
      rfl
    rw [compileRules, compileRules, hgp]
    exact List.foldl_ext _ _ [] hstep
  · have hgp : getConfiguredProviders (pre ++ (prov, ConfigVal.vStr u) :: post) =
        getConfiguredProviders pre ++ prov :: getConfiguredProviders post := by
      rw [getConfiguredProviders_append]
      congr 1
      rw [getConfiguredProviders, List.filter_cons]
      rw [if_pos (by simp [hd])]
      rfl
    rw [compileRules, hgp, List.foldl_append, List.foldl_cons]
    have hskip : ∀ s : Rules,
        compileStep (pre ++ (prov, ConfigVal.vStr u) :: post) s prov = s := by
      intro s
      rw [compileStep, mapGet_append_first pre post prov (ConfigVal.vStr u) hprovpre]
      simp only [hu]
    rw [hskip]
    rw [compileRules, getConfiguredProviders_append, List.foldl_append]
    have hpre₁ : ∀ (s : Rules), ∀ q ∈ getConfiguredProviders pre,
        compileStep (pre ++ (prov, ConfigVal.vStr u) :: post) s q =
          compileStep (pre ++ post) s q := fun s q hq =>
      hstep s q (by rw [getConfiguredProviders_append]; exact List.mem_append.mpr (Or.inl hq))
    have hpost₁ : ∀ (s : Rules), ∀ q ∈ getConfiguredProviders post,
        compileStep (pre ++ (prov, ConfigVal.vStr u) :: post) s q =
          compileStep (pre ++ post) s q := fun s q hq =>
      hstep s q (by rw [getConfiguredProviders_append]; exact List.mem_append.mpr (Or.inr hq))
    rw [List.foldl_ext _ _ [] hpre₁]
    exact List.foldl_ext _ _ _ hpost₁

/-- Witness for C9 at a concrete configuration with one unparseable entry. -/
theorem C9_witness :
    compileRules [("google", ConfigVal.vStr "http://127.0.0.1:20171"),
        ("openai", ConfigVal.vStr "not-a-url")] =
      compileRules [("google", ConfigVal.vStr "http://127.0.0.1:20171")] :=
  C9_compile_skips_unparseable_entries
    [("google", ConfigVal.vStr "http://127.0.0.1:20171")] [] "openai" "not-a-url"
    (by decide) (by decide)

/-- C7: when two configured providers contribute the same pattern, the
compiled table binds that pattern to the proxy URL of the provider
compiled later (`moonshot` and `kimi` share `api.moonshot.cn`), and a URL
matching that pattern resolves to that later proxy URL. -/
theorem C7_last_writer_wins_at_compile :
    ∀ (u₁ u₂ : String) (c₁ c₂ : ProxyConfig),
      parseProxyUrl u₁ = some c₁ → parseProxyUrl u₂ = some c₂ →
      mapGet (compileRules [("moonshot", ConfigVal.vStr u₁), ("kimi", ConfigVal.vStr u₂)])
          "api.moonshot.cn" = some (buildProxyUrl c₂) ∧
      shouldUseProxyForUrl
          ⟨some [("moonshot", ConfigVal.vStr u₁), ("kimi", ConfigVal.vStr u₂)], false,
           some (compileRules [("moonshot", ConfigVal.vStr u₁), ("kimi", ConfigVal.vStr u₂)])⟩
          "https://api.moonshot.cn/v1/chat/completions" = some (buildProxyUrl c₂) := by
  intro u₁ u₂ c₁ c₂ h₁ h₂
  have hgp : getConfiguredProviders [("moonshot", ConfigVal.vStr u₁), ("kimi", ConfigVal.vStr u₂)]
      = ["moonshot", "kimi"] := rfl
  have htab : compileRules [("moonshot", ConfigVal.vStr u₁), ("kimi", ConfigVal.vStr u₂)] =
      [("api.moonshot.cn", buildProxyUrl c₂)] := by
    rw [compileRules, hgp, List.foldl_cons, List.foldl_cons, List.foldl_nil]
    have hs₁ : compileStep [("moonshot", ConfigVal.vStr u₁), ("kimi", ConfigVal.vStr u₂)]
        [] "moonshot" = [("api.moonshot.cn", buildProxyUrl c₁)] := by
      rw [compileStep]
      show (match parseProxyUrl u₁ with
        | none => ([] : Rules)
        | some proxyConfig =>
          (getUrlPatternsForProvider "moonshot").foldl
            (fun rs pattern => mapSet rs (jsToLower pattern) (buildProxyUrl proxyConfig)) []) =
        [("api.moonshot.cn", buildProxyUrl c₁)]
      rw [h₁]
      rfl
    rw [hs₁, compileStep]
    show (match parseProxyUrl u₂ with
      | none => [("api.moonshot.cn", buildProxyUrl c₁)]
      | some proxyConfig =>
        (getUrlPatternsForProvider "kimi").foldl
          (fun rs pattern => mapSet rs (jsToLower pattern) (buildProxyUrl proxyConfig))
          [("api.moonshot.cn", buildProxyUrl c₁)]) =
      [("api.moonshot.cn", buildProxyUrl c₂)]
    rw [h₂]
    rfl
  constructor
  · rw [htab]
    rfl
  · rw [shouldUseProxyForUrl]
    rw [htab]
    simp only [scanRules]
    rw [if_pos (by decide)]

/-- Witness for C7 at two concrete parseable URLs. -/
theorem C7_witness :
    mapGet (compileRules [("moonshot", ConfigVal.vStr "http://127.0.0.1:1081"),
        ("kimi", ConfigVal.vStr "http://127.0.0.1:1082")]) "api.moonshot.cn" =
      some (buildProxyUrl ⟨"http", "127.0.0.1", 1082, none, none⟩) :=
  (C7_last_writer_wins_at_compile "http://127.0.0.1:1081" "http://127.0.0.1:1082"
    ⟨"http", "127.0.0.1", 1081, none, none⟩ ⟨"http", "127.0.0.1", 1082, none, none⟩
    (by decide) (by decide)).1

/-! ## Decimal formatting round-trip -/

theorem toNat_digitChar (n : Nat) (h : n < 10) : (digitChar n).toNat = 48 + n := by
  interval_cases n <;> rfl

theorem isAsciiDigit_digitChar (n : Nat) (h : n < 10) : isAsciiDigit (digitChar n) = true := by
  interval_cases n <;> rfl

theorem digitsToNat_append_singleton (xs : List Char) (c : Char) :
    digitsToNat (xs ++ [c]) = digitsToNat xs * 10 + (c.toNat - 48) := by
  simp [digitsToNat, List.foldl_append]

theorem decRepr_spec :
    ∀ fuel n, n < fuel →
      (decRepr fuel n).all isAsciiDigit = true ∧ digitsToNat (decRepr fuel n) = n ∧
        decRepr fuel n ≠ [] := by
  intro fuel
  induction fuel with
  | zero => intro n h; omega
  | succ fuel ih =>
    intro n h
    by_cases h10 : n < 10
    · rw [decRepr, if_pos h10]
      refine ⟨by simp [isAsciiDigit_digitChar n h10], ?_, by simp⟩
      simp [digitsToNat, toNat_digitChar n h10]
    · rw [decRepr, if_neg h10]
      have hdiv : n / 10 < fuel := by
        have h1 : n / 10 < n := Nat.div_lt_self (by omega) (by omega)
        omega
      obtain ⟨ha, hv, hne⟩ := ih (n / 10) hdiv
      refine ⟨?_, ?_, by simp⟩
      · rw [List.all_append, ha]
        simp [isAsciiDigit_digitChar (n % 10) (Nat.mod_lt n (by omega))]
      · rw [digitsToNat_append_singleton, hv, toNat_digitChar (n % 10) (Nat.mod_lt n (by omega))]
        omega

theorem decimalRepr_all_digits (n : Nat) : (decimalRepr n).all isAsciiDigit = true :=
  (decRepr_spec (n + 1) n (by omega)).1

theorem digitsToNat_decimalRepr (n : Nat) : digitsToNat (decimalRepr n) = n :=
  (decRepr_spec (n + 1) n (by omega)).2.1

theorem decimalRepr_ne_nil (n : Nat) : decimalRepr n ≠ [] :=
  (decRepr_spec (n + 1) n (by omega)).2.2

/-! ## Split lemmas -/

theorem splitAtFirst_not_mem (sep : Char) (cs : List Char) (h : sep ∉ cs) :
    splitAtFirst sep cs = none := by
  induction cs with
  | nil => rfl
  | cons c rest ih =>
    rw [List.mem_cons] at h
    push_neg at h
    rw [splitAtFirst, if_neg (fun he => h.1 he.symm), ih h.2]
    rfl

theorem splitAtFirst_append (sep : Char) (a b : List Char) (h : sep ∉ a) :
    splitAtFirst sep (a ++ sep :: b) = some (a, b) := by
  induction a with
  | nil => simp [splitAtFirst]
  | cons c rest ih =>
    rw [List.mem_cons] at h
    push_neg at h
    rw [List.cons_append, splitAtFirst, if_neg (fun he => h.1 he.symm), ih h.2]
    rfl

theorem splitAtLast_append (sep : Char) (a b : List Char) (h : sep ∉ b) :
    splitAtLast sep (a ++ sep :: b) = some (a, b) := by
  rw [splitAtLast]
  have hrev : (a ++ sep :: b).reverse = b.reverse ++ sep :: a.reverse := by
    simp
  rw [hrev, splitAtFirst_append sep b.reverse a.reverse (by simpa using h)]
  simp

theorem splitAtLast_not_mem (sep : Char) (cs : List Char) (h : sep ∉ cs) :
    splitAtLast sep cs = none := by
  rw [splitAtLast, splitAtFirst_not_mem sep cs.reverse (by simpa using h)]

/-! ## ASCII case analysis -/

theorem ascii_case (P : Char → Prop) [DecidablePred P]
    (hP : ∀ n, n < 128 → P (Char.ofNat n)) (c : Char) (hc : c.toNat < 128) : P c := by
  have h := hP c.toNat hc
  rwa [Char.ofNat_toNat] at h

theorem uriUnreserved_ascii (c : Char) (h : uriUnreserved c = true) : c.toNat < 128 := by
  rw [uriUnreserved, Bool.or_eq_true] at h
  rcases h with h | h
  · simp only [isAsciiAlphanum, isAsciiAlpha, isAsciiDigit, Bool.or_eq_true, Bool.and_eq_true,
      decide_eq_true_eq] at h
    omega
  · have hm : c.toNat ∈ (['-', '_', '.', '!', '~', '*', '\'', '(', ')'].map Char.toNat) :=
      List.mem_map_of_mem Char.toNat (of_decide_eq_true h)
    have hv : (['-', '_', '.', '!', '~', '*', '\'', '(', ')'].map Char.toNat) =
        [45, 95, 46, 33, 126, 42, 39, 40, 41] := rfl
    rw [hv] at hm
    simp only [List.mem_cons, List.not_mem_nil, or_false] at hm
    omega

theorem encOutChar_ascii (c : Char) (h : encOutChar c = true) : c.toNat < 128 := by
  rw [encOutChar, Bool.or_eq_true, Bool.or_eq_true, Bool.or_eq_true] at h
  rcases h with ((h | h) | h) | h
  · exact uriUnreserved_ascii c h
  · have hc : c = '%' := of_decide_eq_true h
    subst hc
    decide
  · simp only [isAsciiDigit, Bool.and_eq_true, decide_eq_true_eq] at h
    omega
  · simp only [Bool.and_eq_true, decide_eq_true_eq] at h
    omega

theorem utf8Bytes_ascii (c : Char) (hc : c.toNat < 128) : utf8Bytes c = [c.toNat] := by
  rw [utf8Bytes, if_pos hc]

theorem encUriChar_out (c : Char) (hc : c.toNat < 128) :
    ∀ d ∈ encUriChar c, encOutChar d = true := by
  refine ascii_case (fun c => ∀ d ∈ encUriChar c, encOutChar d = true) ?_ c hc
  decide

theorem encOut_safe (d : Char) (h : encOutChar d = true) :
    userinfoEncodeSet d = false ∧ d ≠ '@' ∧ d ≠ ':' ∧
      authorityEndChar true d = false ∧ authorityEndChar false d = false := by
  have := ascii_case
    (fun d => encOutChar d = true →
      userinfoEncodeSet d = false ∧ d ≠ '@' ∧ d ≠ ':' ∧
        authorityEndChar true d = false ∧ authorityEndChar false d = false)
    (by decide) d (encOutChar_ascii d h)
  exact this h

theorem encUriList_cons (c : Char) (cs : List Char) :
    encUriList (c :: cs) = encUriChar c ++ encUriList cs := rfl

theorem encUriList_out {l : List Char} (hl : ∀ c ∈ l, c.toNat < 128) :
    ∀ d ∈ encUriList l, encOutChar d = true := by
  induction l with
  | nil => simp [encUriList]
  | cons c cs ih =>
    intro d hd
    rw [encUriList_cons] at hd
    rcases List.mem_append.mp hd with hd | hd
    · exact encUriChar_out c (hl c (List.mem_cons_self c cs)) d hd
    · exact ih (fun c' hc' => hl c' (List.mem_cons_of_mem c hc')) d hd

theorem userinfoEnc_id {l : List Char} (h : ∀ c ∈ l, userinfoEncodeSet c = false) :
    userinfoEnc l = l := by
  induction l with
  | nil => rfl
  | cons c cs ih =>
    have hc := h c (List.mem_cons_self c cs)
    show userinfoEncChar c ++ userinfoEnc cs = c :: cs
    rw [userinfoEncChar, hc]
    simp only [Bool.false_eq_true, if_false]
    rw [ih (fun c' hc' => h c' (List.mem_cons_of_mem c hc'))]
    rfl

theorem utf8Bytes_ne_nil (c : Char) : utf8Bytes c ≠ [] := by
  rw [utf8Bytes]
  split
  · simp
  · split
    · simp
    · split <;> simp

theorem encUriChar_ne_nil (c : Char) : encUriChar c ≠ [] := by
  rw [encUriChar]
  split
  · simp
  · rw [pctEncChar]
    cases hb : utf8Bytes c with
    | nil => exact absurd hb (utf8Bytes_ne_nil c)
    | cons b bs => simp [pctEncByte]

theorem encUriList_ne_nil {l : List Char} (h : l ≠ []) : encUriList l ≠ [] := by
  cases l with
  | nil => exact absurd rfl h
  | cons c cs =>
    rw [encUriList_cons]
    intro hcontra
    exact encUriChar_ne_nil c (List.append_eq_nil.mp hcontra).1

/-! ## Percent-decoding inverts percent-encoding on ASCII -/

theorem hexVal_hexDigitChar (n : Nat) (h : n < 16) : hexVal (hexDigitChar n) = some n := by
  interval_cases n <;> rfl

theorem pctDecodeBytes_cons_ne (c : Char) (rest : List Char) (h : c ≠ '%') :
    pctDecodeBytes (c :: rest) = (pctDecodeBytes rest).map (fun l => utf8Bytes c ++ l) := by
  rw [pctDecodeBytes.eq_def]
  simp only []
  rw [if_neg h]

theorem pctDecodeBytes_pct (h1 h2 : Char) (rest : List Char) :
    pctDecodeBytes ('%' :: h1 :: h2 :: rest) =
      match hexVal h1, hexVal h2 with
      | some a, some b => (pctDecodeBytes rest).map (fun l => (a * 16 + b) :: l)
      | _, _ => none := by
  rw [pctDecodeBytes.eq_def]
  simp only []
  rfl

theorem pctDecodeBytes_encChar (c : Char) (hc : c.toNat < 128) (rest : List Char) :
    pctDecodeBytes (encUriChar c ++ rest) =
      (pctDecodeBytes rest).map (fun l => c.toNat :: l) := by
  rw [encUriChar]
  by_cases hu : uriUnreserved c = true
  · rw [if_pos hu]
    have hne : c ≠ '%' := by
      intro he
      subst he
      exact absurd hu (by decide)
    rw [List.singleton_append, pctDecodeBytes_cons_ne c rest hne, utf8Bytes_ascii c hc]
    rfl
  · rw [if_neg hu, pctEncChar, utf8Bytes_ascii c hc]
    have hshape : (List.foldr (fun b acc => pctEncByte b ++ acc) [] [c.toNat]) ++ rest =
        '%' :: hexDigitChar (c.toNat / 16) :: hexDigitChar (c.toNat % 16) :: rest := by
      simp [pctEncByte]
    rw [hshape, pctDecodeBytes_pct]
    rw [hexVal_hexDigitChar (c.toNat / 16) (by omega), hexVal_hexDigitChar (c.toNat % 16) (by omega)]
    have harith : c.toNat / 16 * 16 + c.toNat % 16 = c.toNat := by omega
    simp only [harith]

theorem pctDecodeBytes_encUriList (l : List Char) (hl : ∀ c ∈ l, c.toNat < 128) :
    pctDecodeBytes (encUriList l) = some (l.map Char.toNat) := by
  induction l with
  | nil => rfl
  | cons c cs ih =>
    rw [encUriList_cons, pctDecodeBytes_encChar c (hl c (List.mem_cons_self c cs)),
      ih (fun c' hc' => hl c' (List.mem_cons_of_mem c hc'))]
    rfl

theorem utf8Decode_cons_ascii (b : Nat) (rest : List Nat) (h : b < 128) :
    utf8Decode (b :: rest) = (utf8Decode rest).map (fun l => Char.ofNat b :: l) := by
  rw [utf8Decode, utf8Decode, utf8DecodeGo, if_pos h]

theorem utf8Decode_map_toNat (l : List Char) (hl : ∀ c ∈ l, c.toNat < 128) :
    utf8Decode (l.map Char.toNat) = some l := by
  induction l with
  | nil => rfl
  | cons c cs ih =>
    rw [List.map_cons, utf8Decode_cons_ascii c.toNat _ (hl c (List.mem_cons_self c cs)),
      ih (fun c' hc' => hl c' (List.mem_cons_of_mem c hc')), Char.ofNat_toNat]
    rfl

theorem decUriList_encUriList (l : List Char) (hl : ∀ c ∈ l, c.toNat < 128) :
    decUriList (encUriList l) = some l := by
  rw [decUriList, pctDecodeBytes_encUriList l hl]
  exact utf8Decode_map_toNat l hl

theorem decode_encode_ascii (s : String) (hs : ∀ c ∈ s.data, c.toNat < 128) :
    decodeURIComponent (encodeURIComponent s) = some s := by
  rw [decodeURIComponent, encodeURIComponent]
  show (decUriList (encUriList s.data)).map (fun l => (⟨l⟩ : String)) = some s
  rw [decUriList_encUriList s.data hs]
  rfl

/-! ## Host and scheme character classes -/

theorem hostChar_ascii (c : Char) (h : hostChar c = true) : c.toNat < 128 := by
  simp only [hostChar, Bool.or_eq_true, Bool.and_eq_true, decide_eq_true_eq] at h
  rcases h with (((h | h) | h) | h) | h
  · omega
  · omega
  · subst h; decide
  · subst h; decide
  · subst h; decide

theorem hostChar_safe (c : Char) (h : hostChar c = true) :
    lowerChar c = c ∧ forbiddenHostCode c = false ∧ c ≠ '%' ∧ ¬(c.toNat ≤ 0x1F) ∧
      ¬(0x7F ≤ c.toNat) ∧ c ≠ '@' ∧ c ≠ ':' ∧ authorityEndChar true c = false ∧
      authorityEndChar false c = false := by
  have hmain := ascii_case
    (fun c => hostChar c = true →
      lowerChar c = c ∧ forbiddenHostCode c = false ∧ c ≠ '%' ∧ ¬(c.toNat ≤ 0x1F) ∧
        ¬(0x7F ≤ c.toNat) ∧ c ≠ '@' ∧ c ≠ ':' ∧ authorityEndChar true c = false ∧
        authorityEndChar false c = false)
    (by decide) c (hostChar_ascii c h)
  exact hmain h

theorem digit_ascii (c : Char) (h : isAsciiDigit c = true) : c.toNat < 128 := by
  simp only [isAsciiDigit, Bool.and_eq_true, decide_eq_true_eq] at h
  omega

theorem digit_safe (c : Char) (h : isAsciiDigit c = true) :
    c ≠ '@' ∧ c ≠ ':' ∧ authorityEndChar true c = false ∧ authorityEndChar false c = false := by
  have hmain := ascii_case
    (fun c => isAsciiDigit c = true →
      c ≠ '@' ∧ c ≠ ':' ∧ authorityEndChar true c = false ∧ authorityEndChar false c = false)
    (by decide) c (digit_ascii c h)
  exact hmain h

theorem parseHost_hostOk (scheme : String) (h : String) (hh : hostOk h = true) :
    parseHost scheme h.data = some h.data := by
  rw [hostOk, Bool.and_eq_true, Bool.and_eq_true] at hh
  obtain ⟨⟨hne, hall⟩, hnum⟩ := hh
  have hall' := List.all_eq_true.mp hall
  have hne' : h.data ≠ [] := by
    intro hc
    rw [hc] at hne
    simp at hne
  have hmap : h.data.map lowerChar = h.data := by
    have hcg : h.data.map lowerChar = h.data.map id :=
      List.map_congr_left (fun a ha => (hostChar_safe a (hall' a ha)).1)
    rw [hcg, List.map_id]
  rw [parseHost]
  by_cases hsp : isSpecialScheme scheme = true
  · rw [if_pos hsp, if_neg hne']
    rw [if_neg (c := (h.data.any fun c =>
        forbiddenHostCode c || c = '%' || c.toNat ≤ 0x1F || 0x7F ≤ c.toNat) = true) ?hforb]
    case hforb =>
      intro hany
      obtain ⟨c, hc, hcp⟩ := List.any_eq_true.mp hany
      obtain ⟨_, hf, hpct, hc0, hdel, _, _, _, _⟩ := hostChar_safe c (hall' c hc)
      simp only [Bool.or_eq_true, decide_eq_true_eq] at hcp
      rcases hcp with ((hcp | hcp) | hcp) | hcp
      · rw [hf] at hcp; exact absurd hcp (by simp)
      · exact hpct hcp
      · exact hc0 hcp
      · exact hdel hcp
    rw [hmap]
    cases hen : endsInNumber h.data with
    | false => rw [if_neg (by rw [hen]; simp)]
    | true =>
      have hcan : canonicalIPv4 h.data = true := by
        rw [hen] at hnum
        simpa using hnum
      rw [if_pos (by rw [hen]), if_pos hcan]
  · rw [if_neg hsp]
    rw [if_neg (c := (h.data.any fun c =>
        forbiddenHostCode c || c.toNat ≤ 0x1F || 0x7F ≤ c.toNat) = true) ?hforb2]
    case hforb2 =>
      intro hany
      obtain ⟨c, hc, hcp⟩ := List.any_eq_true.mp hany
      obtain ⟨_, hf, _, hc0, hdel, _, _, _, _⟩ := hostChar_safe c (hall' c hc)
      simp only [Bool.or_eq_true, decide_eq_true_eq] at hcp
      rcases hcp with (hcp | hcp) | hcp
      · rw [hf] at hcp; exact absurd hcp (by simp)
      · exact hc0 hcp
      · exact hdel hcp

theorem parsePort_digits (scheme : String) (ds : List Char) (hfile : scheme ≠ "file")
    (hne : ds ≠ []) (hd : ds.all isAsciiDigit = true) (hle : digitsToNat ds ≤ 65535)
    (hdef : specialDefaultPort scheme ≠ some (digitsToNat ds)) :
    parsePort scheme (some ds) = some (some (digitsToNat ds)) := by
  rw [parsePort, if_neg hfile, if_neg hne, if_neg (not_not_intro hd),
    if_neg (Nat.not_lt.mpr hle), if_neg hdef]

/-! ## Parsing a built proxy URL -/

theorem authorityEndChar_at (c : Char) (hc : c = '@' ∨ c = ':') (b : Bool) :
    authorityEndChar b c = false := by
  rcases hc with rfl | rfl <;> cases b <;> decide

theorem hostOk_all (host : String) (hh : hostOk host = true) :
    ∀ c ∈ host.data, hostChar c = true := by
  rw [hostOk, Bool.and_eq_true, Bool.and_eq_true] at hh
  exact List.all_eq_true.mp hh.1.2

theorem urlParseList_shape
    (proto : String) (ui? : Option (List Char)) (host : String) (portL : List Char)
    (hS : schemeOk proto.data = true)
    (hSc : ':' ∉ proto.data)
    (hSl : proto.data.map lowerChar = proto.data)
    (hfile : proto ≠ "file")
    (hui : ∀ ui, ui? = some ui → ∀ c ∈ ui,
      c ≠ '@' ∧ authorityEndChar true c = false ∧ authorityEndChar false c = false)
    (hhost : hostOk host = true)
    (hport : portL.all isAsciiDigit = true) :
    urlParseList (proto.data ++ ':' :: '/' :: '/' ::
        (uiAuth ui? ++ (host.data ++ ':' :: portL)))
      = (parsePort proto (some portL)).map
          (fun port => ⟨proto, ⟨uiSplitU ui?⟩, ⟨uiSplitP ui?⟩, host, port⟩) := by
  have hSl' : (⟨proto.data.map lowerChar⟩ : String) = proto := by
    rw [hSl]
  have hhostc := hostOk_all host hhost
  have hportd := List.all_eq_true.mp hport
  have hhp_noat : '@' ∉ host.data ++ ':' :: portL := by
    intro hm
    rcases List.mem_append.mp hm with hm | hm
    · exact (hostChar_safe '@' (hhostc '@' hm)).2.2.2.2.2.1 rfl
    · rcases List.mem_cons.mp hm with hm | hm
      · exact absurd hm.symm (by decide)
      · exact (digit_safe '@' (hportd '@' hm)).1 rfl
  have hhost_nocolon : ':' ∉ host.data := by
    intro hm
    exact (hostChar_safe ':' (hhostc ':' hm)).2.2.2.2.2.2.1 rfl
  have hpass : ∀ c ∈ uiAuth ui? ++ (host.data ++ ':' :: portL),
      ∀ b, authorityEndChar b c = false := by
    intro c hm b
    rcases List.mem_append.mp hm with hm | hm
    · cases hu : ui? with
      | none => rw [hu] at hm; simp [uiAuth] at hm
      | some ui =>
        rw [hu] at hm
        rcases List.mem_append.mp hm with hm | hm
        · obtain ⟨_, ht, hf⟩ := hui ui hu c hm
          cases b
          · exact hf
          · exact ht
        · rcases List.mem_cons.mp hm with rfl | hm
          · exact authorityEndChar_at '@' (Or.inl rfl) b
          · simp at hm
    · rcases List.mem_append.mp hm with hm | hm
      · have := hostChar_safe c (hhostc c hm)
        cases b
        · exact this.2.2.2.2.2.2.2.2
        · exact this.2.2.2.2.2.2.2.1
      · rcases List.mem_cons.mp hm with rfl | hm
        · exact authorityEndChar_at ':' (Or.inr rfl) b
        · have := digit_safe c (hportd c hm)
          cases b
          · exact this.2.2.2
          · exact this.2.2.1
  rw [urlParseList, splitAtFirst_append ':' proto.data _ hSc]
  simp only []
  rw [if_neg (not_not_intro hS), hSl']
  have htake : (uiAuth ui? ++ (host.data ++ ':' :: portL)).takeWhile
      (fun c => ¬ authorityEndChar (isSpecialScheme proto) c) =
      uiAuth ui? ++ (host.data ++ ':' :: portL) := by
    rw [List.takeWhile_eq_self_iff]
    intro c hm
    simp only [decide_eq_true_eq]
    rw [hpass c hm (isSpecialScheme proto)]
    simp
  rw [htake]
  rw [if_neg (fun hc => hfile hc.1)]
  cases hu : ui? with
  | none =>
    simp only [uiAuth, List.nil_append]
    rw [splitAtLast_not_mem '@' _ hhp_noat]
    simp only []
    rw [splitAtFirst_append ':' host.data portL hhost_nocolon]
    simp only []
    rw [parseHost_hostOk proto host hhost]
    simp only []
    cases hp : parsePort proto (some portL) with
    | none => rfl
    | some port => rfl
  | some ui =>
    have happend : uiAuth (some ui) ++ (host.data ++ ':' :: portL) =
        ui ++ '@' :: (host.data ++ ':' :: portL) := by
      rw [uiAuth, List.append_assoc]
      rfl
    rw [happend, splitAtLast_append '@' ui _ hhp_noat]
    simp only []
    rw [splitAtFirst_append ':' host.data portL hhost_nocolon]
    simp only []
    rw [parseHost_hostOk proto host hhost]
    simp only []
    cases hp : parsePort proto (some portL) with
    | none => rfl
    | some port =>
      simp only [Option.map_some]
      cases hsp : splitAtFirst ':' ui with
      | none => simp [uiSplitU, uiSplitP, hsp]
      | some p => simp [uiSplitU, uiSplitP, hsp]

/-! ## The round-trip law -/

theorem data_append (s t : String) : (s ++ t).data = s.data ++ t.data := rfl

theorem str_ne_empty {s : String} (h : s.data ≠ []) : s ≠ "" :=
  fun he => h (congrArg String.data he)

theorem mk_ne_empty {l : List Char} (h : l ≠ []) : (⟨l⟩ : String) ≠ "" :=
  fun he => h (congrArg String.data he)

theorem credOk_facts {s : String} (h : credOk s = true) :
    s.data ≠ [] ∧ ∀ c ∈ s.data, c.toNat < 128 := by
  rw [credOk, Bool.and_eq_true] at h
  constructor
  · intro hc
    rw [hc] at h
    simp at h
  · intro c hc
    exact of_decide_eq_true (List.all_eq_true.mp h.2 c hc)

theorem encU_props {s : String} (h : credOk s = true) :
    (∀ c ∈ encUriList s.data,
      c ≠ '@' ∧ authorityEndChar true c = false ∧ authorityEndChar false c = false) ∧
    ':' ∉ encUriList s.data ∧
    userinfoEnc (encUriList s.data) = encUriList s.data ∧
    encUriList s.data ≠ [] ∧
    decodeURIComponent ⟨encUriList s.data⟩ = some s := by
  obtain ⟨hne, hascii⟩ := credOk_facts h
  have hout := encUriList_out hascii
  refine ⟨fun c hc => ?_, fun hm => ?_, ?_, ?_, ?_⟩
  · have hs := encOut_safe c (hout c hc)
    exact ⟨hs.2.1, hs.2.2.2.1, hs.2.2.2.2⟩
  · exact (encOut_safe ':' (hout ':' hm)).2.2.1 rfl
  · exact userinfoEnc_id (fun c hc => (encOut_safe c (hout c hc)).1)
  · exact encUriList_ne_nil hne
  · exact decode_encode_ascii s hascii

theorem option_map_some {α β : Type} (f : α → β) (a : α) :
    (some a).map f = some (f a) := rfl

theorem parse_build_roundtrip (d : ProxyConfig)
    (hproto : d.protocol = "http" ∨ d.protocol = "https" ∨ d.protocol = "socks4" ∨
      d.protocol = "socks5")
    (hhost : hostOk d.host = true)
    (hport1 : 1 ≤ d.port) (hport2 : d.port ≤ 65535)
    (hdef : specialDefaultPort d.protocol ≠ some d.port)
    (hcred : credsOk d.username d.password = true) :
    parseProxyUrl (buildProxyUrl d) = some d := by
  obtain ⟨proto, host, port, u?, p?⟩ := d
  replace hproto : proto = "http" ∨ proto = "https" ∨ proto = "socks4" ∨ proto = "socks5" :=
    hproto
  replace hhost : hostOk host = true := hhost
  replace hport1 : 1 ≤ port := hport1
  replace hport2 : port ≤ 65535 := hport2
  replace hdef : specialDefaultPort proto ≠ some port := hdef
  replace hcred : credsOk u? p? = true := hcred
  have hS : schemeOk proto.data = true := by
    rcases hproto with rfl | rfl | rfl | rfl <;> decide
  have hSc : ':' ∉ proto.data := by
    rcases hproto with rfl | rfl | rfl | rfl <;> decide
  have hSl : proto.data.map lowerChar = proto.data := by
    rcases hproto with rfl | rfl | rfl | rfl <;> decide
  have hfile : proto ≠ "file" := by
    rcases hproto with rfl | rfl | rfl | rfl <;> decide
  have hsocks : proto ≠ "socks" := by
    rcases hproto with rfl | rfl | rfl | rfl <;> decide
  have hvalid : validProtocols.contains proto = true := by
    rcases hproto with rfl | rfl | rfl | rfl <;> decide
  have hpp : parsePort proto (some (decimalRepr port)) = some (some port) := by
    rw [parsePort_digits proto _ hfile (decimalRepr_ne_nil port) (decimalRepr_all_digits port)
      (by rw [digitsToNat_decimalRepr]; exact hport2)
      (by rw [digitsToNat_decimalRepr]; exact hdef), digitsToNat_decimalRepr]
  have hd1 : ("://" : String).data = [':', '/', '/'] := rfl
  have hd2 : ("" : String).data = ([] : List Char) := rfl
  have hd3 : (":" : String).data = [':'] := rfl
  have hd4 : ("@" : String).data = ['@'] := rfl
  cases u? with
  | none =>
    cases p? with
    | some p => simp [credsOk] at hcred
    | none =>
      have hdata : (buildProxyUrl ⟨proto, host, port, none, none⟩).data =
          proto.data ++ ':' :: '/' :: '/' ::
            (uiAuth none ++ (host.data ++ ':' :: decimalRepr port)) := by
        have hbuild : buildProxyUrl ⟨proto, host, port, none, none⟩ =
            (if proto = "socks" then "socks5" else proto) ++ "://" ++ "" ++ host ++ ":" ++
              (⟨decimalRepr port⟩ : String) := rfl
        rw [hbuild, if_neg hsocks]
        simp [data_append, hd1, hd2, hd3, uiAuth, List.append_assoc]
      rw [parseProxyUrl, urlParse, hdata,
        urlParseList_shape proto none host (decimalRepr port) hS hSc hSl hfile
          (fun ui hui => by simp at hui) hhost (decimalRepr_all_digits port), hpp]
      rw [option_map_some, uiSplitU, uiSplitP]
      simp only []
      rw [if_neg (by omega), if_neg (not_not_intro hvalid),
        if_neg (not_not_intro (rfl : (⟨[]⟩ : String) = ""))]
  | some u =>
    cases p? with
    | none =>
      have hcu : credOk u = true := hcred
      have hu := encU_props hcu
      have hdata : (buildProxyUrl ⟨proto, host, port, some u, none⟩).data =
          proto.data ++ ':' :: '/' :: '/' ::
            (uiAuth (some (encUriList u.data)) ++ (host.data ++ ':' :: decimalRepr port)) := by
        have hne : ¬(u = "") := str_ne_empty (credOk_facts hcu).1
        have hbuild : buildProxyUrl ⟨proto, host, port, some u, none⟩ =
            (if proto = "socks" then "socks5" else proto) ++ "://" ++
              (if u ≠ "" then encodeURIComponent u ++ "@" else "") ++ host ++ ":" ++
              (⟨decimalRepr port⟩ : String) := rfl
        rw [hbuild, if_neg hsocks, if_pos hne]
        simp [data_append, hd1, hd3, hd4, uiAuth, encodeURIComponent, List.append_assoc]
      rw [parseProxyUrl, urlParse, hdata,
        urlParseList_shape proto (some (encUriList u.data)) host (decimalRepr port) hS hSc hSl
          hfile (fun ui hui c hc => by
            rw [Option.some.injEq] at hui
            subst hui
            exact hu.1 c hc)
          hhost (decimalRepr_all_digits port), hpp]
      rw [option_map_some, uiSplitU, uiSplitP]
      simp only []
      rw [splitAtFirst_not_mem ':' _ hu.2.1]
      simp only []
      rw [hu.2.2.1]
      rw [if_neg (by omega), if_neg (not_not_intro hvalid)]
      rw [if_pos (mk_ne_empty hu.2.2.2.1), hu.2.2.2.2, option_map_some,
        if_neg (not_not_intro (rfl : (⟨[]⟩ : String) = ""))]
    | some p =>
      rw [credsOk, Bool.and_eq_true] at hcred
      obtain ⟨hcu, hcp⟩ := hcred
      have hu := encU_props hcu
      have hp := encU_props hcp
      have hdata : (buildProxyUrl ⟨proto, host, port, some u, some p⟩).data =
          proto.data ++ ':' :: '/' :: '/' ::
            (uiAuth (some (encUriList u.data ++ ':' :: encUriList p.data)) ++
              (host.data ++ ':' :: decimalRepr port)) := by
        have hneu : ¬(u = "") := str_ne_empty (credOk_facts hcu).1
        have hnep : ¬(p = "") := str_ne_empty (credOk_facts hcp).1
        have hbuild : buildProxyUrl ⟨proto, host, port, some u, some p⟩ =
            (if proto = "socks" then "socks5" else proto) ++ "://" ++
              (if u ≠ "" then
                (if p ≠ "" then
                  encodeURIComponent u ++ ":" ++ encodeURIComponent p ++ "@"
                 else encodeURIComponent u ++ "@")
               else "") ++ host ++ ":" ++ (⟨decimalRepr port⟩ : String) := rfl
        rw [hbuild, if_neg hsocks, if_pos hneu, if_pos hnep]
        simp [data_append, hd1, hd3, hd4, uiAuth, encodeURIComponent, List.append_assoc]
      rw [parseProxyUrl, urlParse, hdata,
        urlParseList_shape proto (some (encUriList u.data ++ ':' :: encUriList p.data)) host
          (decimalRepr port) hS hSc hSl hfile
          (fun ui hui c hc => by
            rw [Option.some.injEq] at hui
            subst hui
            rcases List.mem_append.mp hc with hc | hc
            · exact hu.1 c hc
            · rcases List.mem_cons.mp hc with rfl | hc
              · exact ⟨by decide, authorityEndChar_at ':' (Or.inr rfl) true,
                  authorityEndChar_at ':' (Or.inr rfl) false⟩
              · exact hp.1 c hc)
          hhost (decimalRepr_all_digits port), hpp]
      rw [option_map_some, uiSplitU, uiSplitP]
      simp only []
      rw [splitAtFirst_append ':' _ _ hu.2.1]
      simp only []
      rw [hu.2.2.1, hp.2.2.1]
      rw [if_neg (by omega), if_neg (not_not_intro hvalid)]
      rw [if_pos (mk_ne_empty hu.2.2.2.1), hu.2.2.2.2, option_map_some,
        if_pos (mk_ne_empty hp.2.2.2.1), hp.2.2.2.2, option_map_some]

theorem str_ext {s t : String} (h : s.data = t.data) : s = t := by
  cases s
  cases t
  simp only [] at h
  rw [h]

/-- C4 counterexample: the round-trip law as stated fails at the valid
descriptor `(http, h, 80)` — its formatted URL `http://h:80` carries the
scheme's default port, which the URL parser strips, so parsing yields no
descriptor at all. -/
theorem C4_counterexample :
    ¬(parseProxyUrl (buildProxyUrl ⟨"http", "h", 80, none, none⟩) =
      some ⟨"http", "h", 80, none, none⟩) := by
  decide

/-- C4 (amended): for every descriptor whose scheme is `http`, `https`,
`socks4` or `socks5`, whose host is a nonempty lowercase-ASCII
hostname (letters, digits, dots, hyphens, underscores; numeric tails only
as canonical IPv4), whose port lies in [1, 65535] and is not the scheme's
default port (80 for http, 443 for https), and whose optional credentials
are nonempty ASCII strings (a password only together with a username),
parsing the formatted URL reproduces the descriptor exactly — including
credentials containing `@`, `:` and `%`. -/
theorem C4_round_trip_law :
    ∀ d : ProxyConfig,
      (d.protocol = "http" ∨ d.protocol = "https" ∨ d.protocol = "socks4" ∨
        d.protocol = "socks5") →
      hostOk d.host = true →
      1 ≤ d.port → d.port ≤ 65535 →
      specialDefaultPort d.protocol ≠ some d.port →
      credsOk d.username d.password = true →
      parseProxyUrl (buildProxyUrl d) = some d :=
  fun d h1 h2 h3 h4 h5 h6 => parse_build_roundtrip d h1 h2 h3 h4 h5 h6

/-- Witness for C4 at a descriptor whose credentials contain `@`, `:`
and `%`. -/
theorem C4_witness :
    parseProxyUrl (buildProxyUrl
        ⟨"http", "proxy.example.com", 8080, some "user@domain", some "p@ss:%"⟩) =
      some ⟨"http", "proxy.example.com", 8080, some "user@domain", some "p@ss:%"⟩ :=
  C4_round_trip_law ⟨"http", "proxy.example.com", 8080, some "user@domain", some "p@ss:%"⟩
    (Or.inl rfl) (by decide) (by decide) (by decide) (by decide) (by decide)

/-- C5 counterexample: `parseProxyUrl` rejects `http://h:80` although its
port 80 lies in [1, 65535] — the URL parser strips a special scheme's
default port, so the "succeeds for every port in [1, 65535]" half of the
claim is false. -/
theorem C5_counterexample : parseProxyUrl "http://h:80" = none := by
  decide

/-- C5 (amended): for any `hostOk` host, an `http` proxy URL with port 0
or port 65536 is rejected, port 65535 is accepted, and every port in
[1, 65535] other than the scheme's default port 80 is accepted with that
port; the default port is stripped by the URL parser and hence rejected as
a missing port. -/
theorem C5_port_boundaries :
    (∀ h : String, hostOk h = true →
      parseProxyUrl ("http://" ++ h ++ ":0") = none ∧
      parseProxyUrl ("http://" ++ h ++ ":65536") = none ∧
      ∀ p : Nat, 1 ≤ p → p ≤ 65535 → p ≠ 80 →
        parseProxyUrl ("http://" ++ h ++ ":" ++ (⟨decimalRepr p⟩ : String)) =
          some ⟨"http", h, p, none, none⟩) ∧
    parseProxyUrl "http://h:65535" = some ⟨"http", "h", 65535, none, none⟩ := by
  refine ⟨fun h hh => ⟨?_, ?_, fun p hp1 hp2 hp80 => ?_⟩, by decide⟩
  · have hdata : ("http://" ++ h ++ ":0").data =
        "http".data ++ ':' :: '/' :: '/' :: (uiAuth none ++ (h.data ++ ':' :: ['0'])) := by
      simp [data_append, uiAuth]
    rw [parseProxyUrl, urlParse, hdata,
      urlParseList_shape "http" none h ['0'] (by decide) (by decide) (by decide) (by decide)
        (fun ui hui => by simp at hui) hh (by decide)]
    rw [show parsePort "http" (some ['0']) = some (some 0) from by decide, option_map_some]
    simp only []
    rw [if_pos (by omega)]
  · have hdata : ("http://" ++ h ++ ":65536").data =
        "http".data ++ ':' :: '/' :: '/' ::
          (uiAuth none ++ (h.data ++ ':' :: ['6', '5', '5', '3', '6'])) := by
      simp [data_append, uiAuth]
    rw [parseProxyUrl, urlParse, hdata,
      urlParseList_shape "http" none h ['6', '5', '5', '3', '6'] (by decide) (by decide)
        (by decide) (by decide) (fun ui hui => by simp at hui) hh (by decide)]
    rw [show parsePort "http" (some ['6', '5', '5', '3', '6']) = none from by decide]
    rfl
  · have hstr : ("http://" ++ h ++ ":" ++ (⟨decimalRepr p⟩ : String)) =
        buildProxyUrl ⟨"http", h, p, none, none⟩ := by
      apply str_ext
      have hbuild : buildProxyUrl ⟨"http", h, p, none, none⟩ =
          (if "http" = "socks" then "socks5" else "http") ++ "://" ++ "" ++ h ++ ":" ++
            (⟨decimalRepr p⟩ : String) := rfl
      rw [hbuild, if_neg (by decide)]
      simp [data_append]
    rw [hstr]
    exact parse_build_roundtrip ⟨"http", h, p, none, none⟩ (Or.inl rfl) hh hp1 hp2
      (by
        intro he
        rw [show specialDefaultPort "http" = some 80 from rfl, Option.some.injEq] at he
        exact hp80 he.symm)
      rfl

/-- Witness for C5 at a concrete host and port. -/
theorem C5_witness :
    parseProxyUrl ("http://" ++ "proxy.local" ++ ":" ++ (⟨decimalRepr 8080⟩ : String)) =
      some ⟨"http", "proxy.local", 8080, none, none⟩ :=
  (C5_port_boundaries.1 "proxy.local" (by decide)).2.2 8080 (by decide) (by decide) (by decide)

/-- C6 counterexample: `parseProxyUrl` does not normalize the bare `socks`
scheme — `socks://h:1080` and `socks5://h:1080` parse to different
descriptors. -/
theorem C6_counterexample :
    parseProxyUrl "socks://h:1080" ≠ parseProxyUrl "socks5://h:1080" := by
  decide

/-- C6 (amended): the `socks` → `socks5` normalization happens at format
time, not parse time: `parseProxyUrl` preserves the bare `socks` scheme in
the descriptor it returns, and `buildProxyUrl` serializes a `socks`
descriptor identically to the corresponding `socks5` descriptor, so
compiled rule tables never contain a `socks://` proxy URL. -/
theorem C6_socks_normalized_at_format_time :
    (∀ (h : String) (p : Nat) (u pw : Option String),
      buildProxyUrl ⟨"socks", h, p, u, pw⟩ = buildProxyUrl ⟨"socks5", h, p, u, pw⟩) ∧
    parseProxyUrl "socks://h:1080" = some ⟨"socks", "h", 1080, none, none⟩ ∧
    parseProxyUrl "socks5://h:1080" = some ⟨"socks5", "h", 1080, none, none⟩ := by
  refine ⟨fun h p u pw => rfl, by decide, by decide⟩

end OcProxy
